import Mathlib

/-!
Shallow embedding of the `zpl` repository (ZPL2 label builder, Zebra run-length
codec, printer diagnostic-telegram parsing) together with theorems checking the
natural-language specification against it.

Python numbers appearing in builder arguments are modelled as rationals `ℚ`
(the source works with Python floats only through `*`, `/`, `math.ceil` and
`"%i"` formatting, all of which are exact on the small decimal inputs the
library is used with); Python strings are modelled as `String`/`List Char`.
Fallible code (`assert`, `raise`, index or parse errors) is modelled with
`Except String`.
-/

namespace Zpl

/-- Python `"%i" % x` formatting of a number: conversion through `int(x)`,
which truncates toward zero. -/
def pyInt (q : ℚ) : ℤ := if 0 ≤ q then ⌊q⌋ else -⌊-q⌋

/-- The decimal rendering of `pyInt`, as interpolated into a command string. -/
def fmtI (q : ℚ) : String := toString (pyInt q)

/-- Modelled from the spec: the spec's stated conversion rule
"rounded to the nearest integer dot (round-half-away-from-zero)"; the source
has no such function, this definition follows the spec's words and is used
only to compare the spec's rounding rule with the code's `pyInt`. -/
def roundHalfAway (q : ℚ) : ℤ := if 0 ≤ q then ⌊q + 1 / 2⌋ else ⌈q - 1 / 2⌉

/-- Truthiness of an optional numeric Python argument (`if x:`):
`None` and `0` are falsy. -/
def truthyQ : Option ℚ → Bool
  | none => false
  | some q => q ≠ 0

/-- Contiguous-sublist test on character lists (Boolean form). -/
def infixOfL (a : List Char) : List Char → Bool
  | [] => a.isEmpty
  | c :: rest => a.isPrefixOf (c :: rest) || infixOfL a rest

/-- Python `a in b` on strings: substring containment. -/
def substrOf (a b : String) : Bool := infixOfL a.toList b.toList

/-- Python `c in s` for a single character `c`: membership in the characters
of `s` (a one-character string is a substring iff it occurs in `s`). -/
def charInStr (c : Char) (s : String) : Bool := s.toList.contains c

/-- The mutable state of `zpl.label.Label`: dimensions, dot scale and the
accumulated command buffer `code`. -/
structure Label where
  height : ℚ
  width : ℚ
  dpmm : ℚ
  code : String
deriving DecidableEq

/-- `Label.__init__`: starts the buffer with `^XA` and the `^PW`/`^LL`
commands computed from width/height in millimeters times `dpmm`. -/
def Label.init (height : ℚ) (width : ℚ) (dpmm : ℚ) : Label :=
  { height := height, width := width, dpmm := dpmm,
    code := "^XA" ++ "^PW" ++ fmtI (width * dpmm) ++ "^LL" ++ fmtI (height * dpmm) }

/-- `Label.labelhome`: emits `^LH` with x and y converted from millimeters via
`"%i" % (x*self.dpmm)`; the optional justification is asserted to be in the
string `'012'` (Python substring semantics). -/
def Label.labelhome (l : Label) (x y : ℚ) (justification : Option String) :
    Except String Label :=
  let l1 : Label :=
    { l with code := l.code ++ "^LH" ++ fmtI (x * l.dpmm) ++ "," ++ fmtI (y * l.dpmm) }
  match justification with
  | none => .ok l1
  | some j =>
    if substrOf j "012" then .ok { l1 with code := l1.code ++ "," ++ j }
    else .error "invalid justification"

/-- `Label.origin`: emits `^FO` with x and y converted from millimeters via
`"%i" % (x*self.dpmm)`; optional justification as in `labelhome`. -/
def Label.origin (l : Label) (x y : ℚ) (justification : Option String) :
    Except String Label :=
  let l1 : Label :=
    { l with code := l.code ++ "^FO" ++ fmtI (x * l.dpmm) ++ "," ++ fmtI (y * l.dpmm) }
  match justification with
  | none => .ok l1
  | some j =>
    if substrOf j "012" then .ok { l1 with code := l1.code ++ "," ++ j }
    else .error "invalid justification"

/-- `Label.endorigin`: appends `^FS`. -/
def Label.endorigin (l : Label) : Label := { l with code := l.code ++ "^FS" }

/-- `Label.zpl_raw`: appends raw commands. -/
def Label.zpl_raw (l : Label) (commands : String) : Label :=
  { l with code := l.code ++ commands }

/-- The font regex `^[A-Z0-9]$` of `write_text`: a single upper-case letter or
digit. -/
def builtinFontMatch (f : String) : Bool :=
  match f.toList with
  | [c] => (('A' ≤ c && c ≤ 'Z') || ('0' ≤ c && c ≤ '9'))
  | _ => false

/-- One character of the external-font-file body class `[A-Z0-9_]`. -/
def isFontBodyChar (c : Char) : Bool :=
  ('A' ≤ c && c ≤ 'Z') || ('0' ≤ c && c ≤ '9') || c == '_'

/-- The part of the font-file regex after the colon: `[A-Z0-9_]+\.(FNT|TTF|TTE)`
(match at the start, unanchored at the end, as `re.match` does; the body class
excludes `.` so the greedy `+` has a unique stopping point). -/
def fontFileSuffixMatch (l : List Char) : Bool :=
  let body := l.takeWhile isFontBodyChar
  let rest := l.drop body.length
  !body.isEmpty &&
    match rest with
    | '.' :: r =>
      ("FNT".toList.isPrefixOf r || "TTF".toList.isPrefixOf r || "TTE".toList.isPrefixOf r)
    | _ => false

/-- The font-file regex `[REBA]?:[A-Z0-9_]+\.(FNT|TTF|TTE)` of `write_text`
(`re.match`: anchored at the start only). -/
def fontFileMatch (l : List Char) : Bool :=
  match l with
  | ':' :: rest => fontFileSuffixMatch rest
  | c :: ':' :: rest => (c == 'R' || c == 'E' || c == 'B' || c == 'A') && fontFileSuffixMatch rest
  | _ => false

/-- The first `if` statement of `write_text` (the `^A` font block): it runs
only when `char_height`, `char_width`, `font` and `orientation` are all truthy
(orientation is a nonempty single character here, hence always truthy).
Inside, the orientation is asserted to be in `'NRIB'` (Python substring
semantics) and the font must match the built-in single-character pattern or
the font-file pattern, else `ValueError`. -/
def wtFontBlock (l : Label) (char_height char_width : Option ℚ) (font : String)
    (orientation : Char) : Except String String :=
  if truthyQ char_height && truthyQ char_width && !(font == "") then
    if charInStr orientation "NRIB" = false then .error "invalid orientation"
    else if builtinFontMatch font then
      .ok ("^A" ++ font ++ String.mk [orientation] ++ "," ++
        fmtI (char_height.getD 0 * l.dpmm) ++ "," ++ fmtI (char_width.getD 0 * l.dpmm))
    else if fontFileMatch font.toList then
      .ok ("^A@" ++ String.mk [orientation] ++ "," ++
        fmtI (char_height.getD 0 * l.dpmm) ++ "," ++ fmtI (char_width.getD 0 * l.dpmm) ++
        "," ++ font)
    else .error "Invalid font."
  else .ok ""

/-- The second `if` statement of `write_text` (the `^FB` text block): it runs
only when `line_width` is truthy; inside, the justification is asserted to be
in `'LCRJ'`. -/
def wtLineBlock (l : Label) (line_width : Option ℚ) (max_line line_spaces : ℤ)
    (justification : Char) (hanging_indent : ℤ) : Except String String :=
  if truthyQ line_width then
    if charInStr justification "LCRJ" = false then .error "invalid justification"
    else
      .ok ("^FB" ++ fmtI (line_width.getD 0 * l.dpmm) ++ "," ++ toString max_line ++
        "," ++ toString line_spaces ++ "," ++ String.mk [justification] ++ "," ++
        toString hanging_indent)
  else .ok ""

/-- `Label.write_text`: the conditional `^A` and `^FB` blocks, then `^FD`
(with `QA,` prefix for qrcode) and, when justification equals `'C'`, the
literal two characters `\&`. -/
def Label.write_text (l : Label) (text : String) (char_height char_width : Option ℚ)
    (font : String) (orientation : Char) (line_width : Option ℚ) (max_line : ℤ)
    (line_spaces : ℤ) (justification : Char) (hanging_indent : ℤ) (qrcode : Bool) :
    Except String Label :=
  match wtFontBlock l char_height char_width font orientation with
  | .error e => .error e
  | .ok f1 =>
    match wtLineBlock l line_width max_line line_spaces justification hanging_indent with
    | .error e => .error e
    | .ok f2 =>
      let f3 := if qrcode then "^FDQA," ++ text else "^FD" ++ text
      let f4 := if justification = 'C' then "\\&" else ""
      .ok { l with code := l.code ++ f1 ++ f2 ++ f3 ++ f4 }

/-- `Label.draw_box`: width/height/thickness are taken in dots and formatted
with `%i` directly (no `dpmm` factor); color must be in `'BW'` and rounding at
most 8. -/
def Label.draw_box (l : Label) (width height thickness : ℚ) (color : String)
    (rounding : ℤ) : Except String Label :=
  if substrOf color "BW" = false then .error "invalid color"
  else if decide (rounding ≤ 8) = false then .error "invalid rounding"
  else
    let frag := "^GB" ++ fmtI width ++ "," ++ fmtI height ++ "," ++
      fmtI thickness ++ "," ++ color ++ "," ++ toString rounding
    .ok { l with code := l.code ++ frag }

/-- `Label.draw_ellipse`: width/height/thickness in dots, formatted with `%i`
directly; color must be in `'BW'`. -/
def Label.draw_ellipse (l : Label) (width height thickness : ℚ) (color : String) :
    Except String Label :=
  if substrOf color "BW" = false then .error "invalid color"
  else
    let frag := "^GE" ++ fmtI width ++ "," ++ fmtI height ++ "," ++
      fmtI thickness ++ "," ++ color
    .ok { l with code := l.code ++ frag }

/-- The height derivation of `write_graphic`/`upload_graphic`: when the given
height is falsy (0), derive it as `int(float(srcH)/srcW*width)` — a truncating
conversion of the aspect-ratio-scaled width. -/
def graphicHeight (srcW srcH : Nat) (width height : ℚ) : ℚ :=
  if height = 0 then ((pyInt ((srcH : ℚ) / (srcW : ℚ) * width) : ℤ) : ℚ) else height

/-- `Label.write_graphic`.  The pixel raster comes from the external bitmap
collaborator (PIL); its hex payload is the `data` argument here.  The header
computes `totalbytes = ceil(width*dpmm/8.0)*height*dpmm` and
`bytesperrow = ceil(width*dpmm/8.0)` and emits
`^GFA,<len(data)>,<totalbytes>,<bytesperrow>,<data>`.  Any compression type
other than `"A"` raises (`_convert_image` raises before the dead `"B"` branch
is reached). -/
def Label.write_graphic (l : Label) (srcW srcH : Nat) (data : String)
    (width height : ℚ) (compression_type : String) : Except String (Label × ℚ) :=
  let h := graphicHeight srcW srcH width height
  let totalbytes : ℚ := ((⌈width * l.dpmm / 8⌉ : ℤ) : ℚ) * h * l.dpmm
  let bytesperrow : ℤ := ⌈width * l.dpmm / 8⌉
  if compression_type = "A" then
    let frag := "^GFA," ++ toString data.length ++ "," ++
      toString (pyInt totalbytes) ++ "," ++ toString bytesperrow ++ "," ++ data
    .ok ({ l with code := l.code ++ frag }, h)
  else .error "unsupported compression type"

/-- The `barcode_type == 'Q'` branch of `Label._barcode_config`: orientation
must equal `'N'`, magnification must be 1–10, errorCorrection must be in
`'HQML'` (Python substring semantics on the string argument), mask must be
1–7; the emitted fragment is `^BQ{orientation},2,{magnification},{EC},{mask}`
(model fixed to 2).  Magnification and mask are modelled as `Nat` (the
assert also accepts their decimal-string forms `'1'`–`'10'`/`'1'`–`'7'`,
which denote the same values). -/
def qr_barcode_zpl (orientation : String) (magnification : Nat)
    (errorCorrection : String) (mask : Nat) : Except String String :=
  if !(orientation == "N") then .error "QR Code orientation may only be N"
  else if !(1 ≤ magnification && magnification ≤ 10) then
    .error "QR Code maginification may be 1 - 10."
  else if substrOf errorCorrection "HQML" = false then
    .error "QR Code errorCorrection may be H, Q, M or L."
  else if !(1 ≤ mask && mask ≤ 7) then .error "QR Code mask may be 1 - 7."
  else
    .ok ("^BQ" ++ orientation ++ ",2," ++ toString magnification ++ "," ++
      errorCorrection ++ "," ++ toString mask)

/-- The `barcode_type='Q'` path of `Label.barcode`: the `_barcode_config`
fragment followed by the content fragment `^FD{errorCorrection}A,{code}`. -/
def barcode_q (code : String) (orientation : String) (magnification : Nat)
    (errorCorrection : String) (mask : Nat) : Except String String :=
  match qr_barcode_zpl orientation magnification errorCorrection mask with
  | .error e => .error e
  | .ok cfg => .ok (cfg ++ "^FD" ++ errorCorrection ++ "A," ++ code)

/-- `Label.dumpZPL`: returns `self.code + "^XZ"`, mutating nothing; the
untouched post-state is returned explicitly to make the frame effect of the
method visible. -/
def dumpZPL (l : Label) : String × Label := (l.code ++ "^XZ", l)

/-! ### `zpl.utils`: the Zebra run-length codec -/

/-- `ZPL_COMPRESS_MAP` of `utils.py`, in source (insertion) order: run counts
1–19 map to `'G'`–`'Y'` and multiples of 20 up to 400 map to `'g'`–`'z'`. -/
def ZPL_COMPRESS_MAP : List (Nat × Char) :=
  [(1, 'G'), (2, 'H'), (3, 'I'), (4, 'J'), (5, 'K'), (6, 'L'), (7, 'M'), (8, 'N'),
   (9, 'O'), (10, 'P'), (11, 'Q'), (12, 'R'), (13, 'S'), (14, 'T'), (15, 'U'),
   (16, 'V'), (17, 'W'), (18, 'X'), (19, 'Y'),
   (20, 'g'), (40, 'h'), (60, 'i'), (80, 'j'), (100, 'k'), (120, 'l'), (140, 'm'),
   (160, 'n'), (180, 'o'), (200, 'p'), (220, 'q'), (240, 'r'), (260, 's'),
   (280, 't'), (300, 'u'), (320, 'v'), (340, 'w'), (360, 'x'), (380, 'y'), (400, 'z')]

/-- `ZPL_COMPRESS_COUNTS`: the map's keys sorted in descending order.  The keys
are listed in ascending order in the source, so `sort(reverse=True)` is exactly
list reversal. -/
def ZPL_COMPRESS_COUNTS : List Nat := (ZPL_COMPRESS_MAP.map Prod.fst).reverse

/-- `ZPL_COMPRESS_MAP[n]`: the glyph of a representable run count. -/
def glyphOf (n : Nat) : Char :=
  ((ZPL_COMPRESS_MAP.find? (fun p => p.1 == n)).map Prod.snd).getD ' '

/-- The run count denoted by a glyph (the inverse direction of the map, used
by the spec's token re-expansion; 0 for a character that is no glyph). -/
def denomOf (c : Char) : Nat :=
  ((ZPL_COMPRESS_MAP.find? (fun p => p.2 == c)).map Prod.fst).getD 0

/-- One step of the greedy loop of `_compress_char`: the first (hence, the
list being descending, the largest) denomination not exceeding `count`. -/
def pickDenom (count : Nat) : Option Nat :=
  ZPL_COMPRESS_COUNTS.find? (fun d => decide (d ≤ count))

/-- The `while count > 0` loop of `_compress_char`, as the list of chosen
denominations in order.  Each iteration subtracts the picked denomination
(always ≥ 1), so `count` itself is enough fuel; the `none` branch is
unreachable for positive counts since 1 is in the denomination list. -/
def greedyAux : Nat → Nat → List Nat
  | 0, _ => []
  | fuel + 1, count =>
    if count = 0 then []
    else
      match pickDenom count with
      | none => []
      | some d => d :: greedyAux fuel (count - d)

/-- The denominations `_compress_char` chooses for a run of length `count`. -/
def greedy (count : Nat) : List Nat := greedyAux count count

/-- `_compress_char` of `utils.py`: the concatenated count glyphs followed by
the literal character, except that the single glyph `"G"` (a run of length 1)
is dropped and the bare literal is emitted. -/
def _compress_char (count : Nat) (char : Char) : List Char :=
  let g := (greedy count).map glyphOf
  if g = ['G'] then [char] else g ++ [char]

/-- The `while i < len(zpl_data)` scan of `compress_zpl_data`: at each index,
count the maximal run of the current character (`cnt`), emit
`_compress_char(cnt, next)` and skip the run.  Each iteration consumes at
least one character, so the input length is enough fuel. -/
def compressFuel : Nat → List Char → List Char
  | 0, _ => []
  | _, [] => []
  | fuel + 1, c :: rest =>
    let k := (rest.takeWhile (fun x => x == c)).length
    _compress_char (k + 1) c ++ compressFuel fuel (rest.drop k)

/-- `compress_zpl_data` of `utils.py` on a character list. -/
def compress_zpl_data (l : List Char) : List Char := compressFuel l.length l

/-- The same scan as `compressFuel`, keeping the per-run output chunks — the
(count-glyphs, literal) tokens of the compressed stream — separate. -/
def tokensFuel : Nat → List Char → List (List Char)
  | 0, _ => []
  | _, [] => []
  | fuel + 1, c :: rest =>
    let k := (rest.takeWhile (fun x => x == c)).length
    _compress_char (k + 1) c :: tokensFuel fuel (rest.drop k)

/-- The tokens of `compress_zpl_data`'s output, one per maximal run. -/
def compressTokens (l : List Char) : List (List Char) := tokensFuel l.length l

/-- Re-expansion of one emitted token, as the round-trip property describes
it: the final character is the literal; it is repeated by the sum of the run
counts denoted by the preceding glyphs, a bare literal (no glyphs) counting as
a run of 1. -/
def expandToken (t : List Char) : List Char :=
  match t.getLast? with
  | none => []
  | some c =>
    let g := t.dropLast
    List.replicate (if g = [] then 1 else (g.map denomOf).sum) c

/-! ### `zpl.printer`: diagnostic telegram parsing and per-query caches -/

/-- The per-instance caches of `Printer.__init__`: `_info`, `_cfg`, `_stat`,
each a dict modelled as an association list in insertion order. -/
structure PrinterState where
  info : List (String × String)
  cfg : List (String × String)
  stat : List (String × String)
deriving DecidableEq

/-- Python `l[i]`: `IndexError` when out of range. -/
def listIdx (l : List α) (i : Nat) : Except String α :=
  match l.get? i with
  | some x => .ok x
  | none => .error "IndexError"

/-- Python `s.strip(chars)`: remove the given characters from both ends. -/
def stripChars (l : List Char) (cs : List Char) : List Char :=
  ((l.dropWhile (fun c => cs.contains c)).reverse.dropWhile (fun c => cs.contains c)).reverse

/-- Python `s.strip()` (no argument): strip whitespace from both ends. -/
def pyStrip (l : List Char) : List Char :=
  stripChars l [' ', '\t', '\n', '\r', '\x0b', '\x0c']

/-- Python `s[-n:]`: the last `n` characters (the whole string if shorter). -/
def lastN (l : List Char) (n : Nat) : List Char := l.drop (l.length - n)

/-- Python `s[a:b]` for `a ≤ b`. -/
def pySlice (l : List Char) (a b : Nat) : List Char := (l.drop a).take (b - a)

/-- Python `int(s)` as used on single-digit slices of the telegram:
`ValueError` unless the string is a nonempty digit string. -/
def pyParseInt (l : List Char) : Except String Nat :=
  if !l.isEmpty && l.all Char.isDigit then
    .ok (l.foldl (fun acc c => acc * 10 + (c.toNat - 48)) 0)
  else .error "ValueError"

/-- Python `s.split(sep)` for a nonempty separator sequence (keeps empty
pieces).  Each step consumes at least one character, so length+1 is enough
fuel. -/
def splitOnSeqFuel : Nat → List Char → List Char → List Char → List (List Char)
  | 0, _, cur, _ => [cur.reverse]
  | fuel + 1, l, cur, sep =>
    match l with
    | [] => [cur.reverse]
    | c :: rest =>
      if sep.isPrefixOf (c :: rest) then
        cur.reverse :: splitOnSeqFuel fuel ((c :: rest).drop sep.length) [] sep
      else splitOnSeqFuel fuel rest (c :: cur) sep

/-- Python `s.split(sep)`. -/
def splitOnSeq (sep l : List Char) : List (List Char) :=
  splitOnSeqFuel (l.length + 1) l [] sep

/-- Python `s.split()` (no argument): split on whitespace runs, dropping empty
pieces.  Each step consumes at least one character. -/
def pySplitWsFuel : Nat → List Char → List (List Char)
  | 0, _ => []
  | fuel + 1, l =>
    let l1 := l.dropWhile Char.isWhitespace
    match l1 with
    | [] => []
    | _ :: _ =>
      l1.takeWhile (fun c => !c.isWhitespace) ::
        pySplitWsFuel fuel (l1.dropWhile (fun c => !c.isWhitespace))

/-- Python `s.split()`. -/
def pySplitWs (l : List Char) : List (List Char) := pySplitWsFuel (l.length + 1) l

/-- Assignment `d[k] = v` on a Python dict modelled as an association list:
replace the value of an existing key, else append the binding. -/
def dictSet (d : List (String × String)) (k v : String) : List (String × String) :=
  if d.any (fun p => p.1 == k) then d.map (fun p => if p.1 == k then (k, v) else p)
  else d ++ [(k, v)]

/-- `d.update(new)` on a Python dict: set every binding of `new` in order. -/
def dictUpdate (d new : List (String × String)) : List (String × String) :=
  new.foldl (fun acc p => dictSet acc p.1 p.2) d

/-- One `if bit & 1 / elif bit & 2 / elif bit & 4 / elif bit & 8` chain of
`get_printer_errors`: Python `elif` makes the four tests mutually exclusive. -/
def elifChain4 (bit : Nat) (c1 c2 c3 c4 : String) : List String :=
  if bit &&& 1 ≠ 0 then [c1]
  else if bit &&& 2 ≠ 0 then [c2]
  else if bit &&& 4 ≠ 0 then [c3]
  else if bit &&& 8 ≠ 0 then [c4]
  else []

/-- The two-condition `if bit & 1 / elif bit & 2` chain of
`get_printer_errors`. -/
def elifChain2 (bit : Nat) (c1 c2 : String) : List String :=
  if bit &&& 1 ≠ 0 then [c1]
  else if bit &&& 2 ≠ 0 then [c2]
  else []

/-- The three warning nibbles of `get_printer_errors`, taken from characters
5, 6 and 7 of the second whitespace-separated word of the warning line. -/
def warnChainsOf (w1 : List Char) : Except String (List String) := do
  let b1 ← pyParseInt (pySlice w1 5 6)
  let b2 ← pyParseInt (pySlice w1 6 7)
  let b3 ← pyParseInt (pySlice w1 7 8)
  .ok (elifChain4 b1 "Sensor 5 (presenter)" "Sensor 6 (retract ready)"
      "Sensor 7 (in retract)" "Sensor 8 (at bin)" ++
    elifChain4 b2 "Sensor 1 (Paper before head)" "Sensor 2 (Black mark)"
      "Sensor 3 (Paper after head)" "Sensor 4 (loop ready)" ++
    elifChain4 b3 "Need to Calibrate Media" "Clean Printhead" "Replace Printhead"
      "Paper-near-end Sensor")

/-- The five error nibbles of `get_printer_errors`, taken from characters 3–7
of the third whitespace-separated word of the error line. -/
def errChainsOf (e2 : List Char) : Except String (List String) := do
  let b1 ← pyParseInt (pySlice e2 3 4)
  let b2 ← pyParseInt (pySlice e2 4 5)
  let b3 ← pyParseInt (pySlice e2 5 6)
  let b4 ← pyParseInt (pySlice e2 6 7)
  let b5 ← pyParseInt (pySlice e2 7 8)
  .ok (elifChain4 b1 "Paused" "Retract Function timed out" "Black Mark Calabrate Error"
      "Black Mark not Found" ++
    elifChain4 b2 "Paper Jam during Retract" "Presenter Not Running" "Paper Feed Error"
      "Clear Paper Path Failed" ++
    elifChain2 b3 "Invalid Firmware Configuration" "Printhead Thermistor Open" ++
    elifChain4 b4 "Printhead Over Temperature" "Motor Over Temperature"
      "Bad Printhead Element" "Printhead Detection Error" ++
    elifChain4 b5 "Media Out" "Ribbon Out" "Head Open" "Cutter Fault")

/-- The parsing body of `get_printer_errors`: the `~HQES` response is
stripped and split on `'\n'`; the warning line is `ret[4]` and the error line
`ret[3]`, each reduced to its last 19 characters and whitespace-split; the
nibble digits come from fixed offsets of word 1 (warnings) and word 2
(errors); the result is `(warning[0], warning descriptions, error[0], error
descriptions)`. -/
def parseHQES (resp : String) :
    Except String (String × List String × String × List String) := do
  let ret := splitOnSeq ['\n'] (pyStrip resp.toList)
  let line4 ← listIdx ret 4
  let warning := pySplitWs (lastN (pyStrip line4) 19)
  let w1 ← listIdx warning 1
  let dw ← warnChainsOf w1
  let line3 ← listIdx ret 3
  let errorWords := pySplitWs (lastN (pyStrip line3) 19)
  let e2 ← listIdx errorWords 2
  let de ← errChainsOf e2
  let w0 ← listIdx warning 0
  let e0 ← listIdx errorWords 0
  .ok (String.mk w0, dw, String.mk e0, de)

/-- `Printer.get_printer_errors`.  The guard `if not self._info:` tests the
identification cache (not an error/warning cache); when that cache is
populated the parsing body is skipped and the `return` line reads the unbound
locals `warning`/`error` (a `NameError`).  Nothing is ever stored in any
cache: the state is returned unchanged. -/
def get_printer_errors (req : String → String) (st : PrinterState) :
    Except String ((String × List String × String × List String) × PrinterState) :=
  if !st.info.isEmpty then .error "NameError"
  else (parseHQES (req "~HQES")).map (fun r => (r, st))

/-- The `~HI` identification regex of `get_printer_info`:
`\x02(model),(version),(dpmm),(mem)\x03` with `[^,]+` fields — the stripped
response must start with the STX marker, contain the ETX marker, and carry
exactly four nonempty comma-free fields before it. -/
def parseHI (resp : String) : Except String (List (String × String)) :=
  let ret := pyStrip resp.toList
  match ret with
  | '\x02' :: rest =>
    if rest.contains '\x03' then
      match splitOnSeq [','] (rest.takeWhile (fun c => !(c == '\x03'))) with
      | [model, version, dpmm, mem] =>
        if !model.isEmpty && !version.isEmpty && !dpmm.isEmpty && !mem.isEmpty then
          .ok [("model", String.mk model), ("version", String.mk version),
            ("dpmm", String.mk dpmm), ("mem", String.mk mem)]
        else .error "AttributeError"
      | _ => .error "AttributeError"
    else .error "AttributeError"
  | _ => .error "AttributeError"

/-- `Printer.get_printer_info`: parses `~HI` into `_info` on first call; once
`_info` is nonempty the cached record is returned.  The method has no reload
parameter. -/
def get_printer_info (req : String → String) (st : PrinterState) :
    Except String (List (String × String) × PrinterState) :=
  if st.info.isEmpty then do
    let d ← parseHI (req "~HI")
    .ok (d, { st with info := d })
  else .ok (st.info, st)

/-- The names of the 12 comma-separated fields of the first `~HS` status line
(`None` marks the literal `000` field that binds no group). -/
def statusLine1Names : List (Option String) :=
  [some "interface", some "paper_out", some "pause", some "label_length",
   some "number_of_formats_in_recv_buf", some "buffer_full", some "comm_diag_mode",
   some "partial_format", none, some "corrupt_ram", some "under_temp", some "over_temp"]

/-- The names of the 11 fields of the second `~HS` status line (`None` marks
the unused second field). -/
def statusLine2Names : List (Option String) :=
  [some "func_settings", none, some "head_up", some "ribbon_out",
   some "thermoal_transfer", some "print_mode", some "print_width_mode",
   some "label_waiting", some "labels_remaining", some "format_while_printing",
   some "graphics_stored_in_mem"]

/-- The names of the 2 fields of the third `~HS` status line. -/
def statusLine3Names : List (Option String) := [some "password", some "static_ram"]

/-- One `~HS` status-line regex
`\x02(f1),...,(fn)\x03` with `[^,]+` fields: the line must start with STX,
contain ETX, and carry exactly as many comma-free fields as there are names;
each named field must be nonempty, and the first line's ninth field must be
the literal `000`.  The spec's `MalformedResponse` corresponds to the
`AttributeError` raised on `m.groupdict()` when the match fails. -/
def parseStatusLine (names : List (Option String)) (literal000At : Option Nat)
    (line : List Char) : Except String (List (String × String)) :=
  match line with
  | '\x02' :: rest =>
    if rest.contains '\x03' then
      let fields := splitOnSeq [','] (rest.takeWhile (fun c => !(c == '\x03')))
      if fields.length = names.length && fields.all (fun f => !f.isEmpty) &&
          (match literal000At with
           | none => true
           | some i => (fields.get? i).getD [] == ['0', '0', '0']) then
        .ok ((names.zip fields).filterMap
          (fun p => p.1.map (fun n => (n, String.mk p.2))))
      else .error "AttributeError"
    else .error "AttributeError"
  | _ => .error "AttributeError"

/-- `Printer.get_printer_status`: when `_stat` is empty or `reload` is set,
query `~HS`, strip, split on `'\r\n'`, parse the three lines and
`update` `_stat` with each group dict; otherwise return the cache. -/
def get_printer_status (req : String → String) (reload : Bool) (st : PrinterState) :
    Except String (List (String × String) × PrinterState) :=
  if st.stat.isEmpty || reload then do
    let ret := splitOnSeq ['\r', '\n'] (pyStrip (req "~HS").toList)
    let l0 ← listIdx ret 0
    let d1 ← parseStatusLine statusLine1Names (some 8) l0
    let l1 ← listIdx ret 1
    let d2 ← parseStatusLine statusLine2Names none l1
    let l2 ← listIdx ret 2
    let d3 ← parseStatusLine statusLine3Names none l2
    let newStat := dictUpdate (dictUpdate (dictUpdate st.stat d1) d2) d3
    .ok (newStat, { st with stat := newStat })
  else .ok (st.stat, st)

/-- Python `str.find(sub, start)`: the least index `p ≥ start` at which `sub`
occurs, scanning forward.  The scan advances one position per step, so
`l.length + 1` is enough fuel. -/
def strFindFuel : Nat → List Char → List Char → Nat → Option Nat
  | 0, _, _, _ => none
  | fuel + 1, l, pat, start =>
    if start + pat.length ≤ l.length then
      if pat.isPrefixOf (l.drop start) then some start
      else strFindFuel fuel l pat (start + 1)
    else none

/-- Python `l.find(sub, start)` (with `none` for `-1`). -/
def strFind (l pat : List Char) (start : Nat) : Option Nat :=
  strFindFuel (l.length + 1) l pat start

/-- The longest-space-streak loop of `get_printer_config`: starting from
`i = j = 0, k = 1`, repeatedly search for `k` consecutive spaces from the
previous hit; the result is the position of the last successful search (the
first occurrence of the line's longest space run), or 0 if the line has no
space.  `k` grows by one per successful search and a search for more than
`l.length` spaces fails, so `l.length + 1` is enough fuel. -/
def cfgLoopFuel : Nat → List Char → Nat → Nat → Nat
  | 0, _, j, _ => j
  | fuel + 1, l, j, k =>
    match strFind l (List.replicate k ' ') j with
    | none => j
    | some p => cfgLoopFuel fuel l p (k + 1)

/-- The split index `i` that `get_printer_config` computes for one stripped
configuration line. -/
def cfgSplitIdx (l : List Char) : Nat := cfgLoopFuel (l.length + 1) l 0 1

/-- The per-line processing of `get_printer_config`: strip the line, find the
longest-space-streak index `i`, and return the pair
`(setting name, value) = (l[i:].strip(), l[:i].strip())`. -/
def configSplitLine (line : List Char) : List Char × List Char :=
  let l := pyStrip line
  let i := cfgSplitIdx l
  (pyStrip (l.drop i), pyStrip (l.take i))

/-- `Printer.get_printer_config`: when `_cfg` is empty or `reload` is set,
query `^XA^HH^XZ`, strip the control/whitespace characters from both ends,
split on `'\r\n'` and assign `cfg[name] = value` per line (dict assignment:
existing keys are overwritten, new keys appended — the old dict is updated,
not replaced); otherwise return the cache. -/
def get_printer_config (req : String → String) (reload : Bool) (st : PrinterState) :
    List (String × String) × PrinterState :=
  if st.cfg.isEmpty || reload then
    let lines := splitOnSeq ['\r', '\n']
      (stripChars (req "^XA^HH^XZ").toList ['\x02', '\x03', ' ', '\t', '\n', '\r'])
    let newCfg := lines.foldl
      (fun acc line =>
        let nv := configSplitLine line
        dictSet acc (String.mk nv.1) (String.mk nv.2)) st.cfg
    (newCfg, { st with cfg := newCfg })
  else (st.cfg, st)

/-- The run of spaces in `l` starting at position `p` (0 when `l[p]` is not a
space or `p` is out of range). -/
def spaceRun (l : List Char) (p : Nat) : Nat :=
  ((l.drop p).takeWhile (fun c => c == ' ')).length

/-! ## Helper lemmas -/

theorem pyInt_intCast (n : ℤ) : pyInt ((n : ℤ) : ℚ) = n := by
  unfold pyInt
  split
  · exact Int.floor_intCast n
  · rw [show (-(n : ℚ)) = ((-n : ℤ) : ℚ) by push_cast; ring, Int.floor_intCast]
    omega

theorem pyInt_nonneg_floor {q : ℚ} (h : 0 ≤ q) : pyInt q = ⌊q⌋ := by
  unfold pyInt; exact if_pos h

theorem counts_pos : ∀ d ∈ ZPL_COMPRESS_COUNTS, 1 ≤ d := by decide

theorem one_mem_counts : (1 : Nat) ∈ ZPL_COMPRESS_COUNTS := by decide

theorem counts_sorted : ZPL_COMPRESS_COUNTS.Pairwise (· ≥ ·) := by decide

theorem glyph_denom : ∀ d ∈ ZPL_COMPRESS_COUNTS, denomOf (glyphOf d) = d := by decide

theorem glyphG_eq_one : ∀ d ∈ ZPL_COMPRESS_COUNTS, glyphOf d = 'G' → d = 1 := by decide

theorem pickDenom_le {count d : Nat} (h : pickDenom count = some d) : d ≤ count := by
  simpa using List.find?_some h

theorem pickDenom_mem {count d : Nat} (h : pickDenom count = some d) :
    d ∈ ZPL_COMPRESS_COUNTS := List.mem_of_find?_eq_some h

theorem pickDenom_pos {count d : Nat} (h : pickDenom count = some d) : 1 ≤ d :=
  counts_pos d (pickDenom_mem h)

theorem pickDenom_isSome {count : Nat} (h : 1 ≤ count) :
    ∃ d, pickDenom count = some d := by
  cases hf : pickDenom count with
  | some d => exact ⟨d, rfl⟩
  | none =>
    exfalso
    have := List.find?_eq_none.mp hf 1 one_mem_counts
    simp at this
    omega

theorem find?_desc_max : ∀ (L : List Nat) (c d : Nat), L.Pairwise (· ≥ ·) →
    L.find? (fun e => decide (e ≤ c)) = some d → ∀ e ∈ L, e ≤ c → e ≤ d := by
  intro L
  induction L with
  | nil => intro c d _ hfind; simp [List.find?] at hfind
  | cons x xs ih =>
    intro c d hp hfind e he hec
    rw [List.pairwise_cons] at hp
    by_cases hx : x ≤ c
    · rw [List.find?_cons_of_pos _ (by simpa using hx)] at hfind
      obtain rfl : x = d := by simpa using hfind
      rcases List.mem_cons.mp he with rfl | hmem
      · exact le_rfl
      · exact hp.1 e hmem
    · rw [List.find?_cons_of_neg _ (by simpa using hx)] at hfind
      rcases List.mem_cons.mp he with rfl | hmem
      · exact absurd hec hx
      · exact ih c d hp.2 hfind e hmem hec

theorem greedyAux_sum : ∀ (fuel count : Nat), count ≤ fuel →
    (greedyAux fuel count).sum = count := by
  intro fuel
  induction fuel with
  | zero =>
    intro count h
    simp only [greedyAux, List.sum_nil]
    omega
  | succ f ih =>
    intro count h
    by_cases h0 : count = 0
    · simp [greedyAux, h0]
    · obtain ⟨d, hd⟩ := pickDenom_isSome (Nat.one_le_iff_ne_zero.mpr h0)
      have hle := pickDenom_le hd
      have hpos := pickDenom_pos hd
      rw [greedyAux, if_neg h0, hd, List.sum_cons, ih (count - d) (by omega)]
      omega

theorem greedyAux_mem : ∀ (fuel count x : Nat), x ∈ greedyAux fuel count →
    x ∈ ZPL_COMPRESS_COUNTS := by
  intro fuel
  induction fuel with
  | zero => intro count x hx; simp [greedyAux] at hx
  | succ f ih =>
    intro count x hx
    by_cases h0 : count = 0
    · rw [greedyAux, if_pos h0] at hx; simp at hx
    · rw [greedyAux, if_neg h0] at hx
      cases hd : pickDenom count with
      | none => rw [hd] at hx; simp at hx
      | some d =>
        rw [hd] at hx
        rcases List.mem_cons.mp hx with rfl | hmem
        · exact pickDenom_mem hd
        · exact ih (count - d) x hmem

theorem greedy_sum (n : Nat) : (greedy n).sum = n := greedyAux_sum n n le_rfl

theorem greedy_mem {n d : Nat} (h : d ∈ greedy n) : d ∈ ZPL_COMPRESS_COUNTS :=
  greedyAux_mem n n d h

theorem map_glyph_singleton (n : Nat) (h : (greedy n).map glyphOf = ['G']) : n = 1 := by
  match hg : greedy n with
  | [] => rw [hg] at h; simp at h
  | [d] =>
    rw [hg] at h
    simp at h
    have hdmem : d ∈ ZPL_COMPRESS_COUNTS := greedy_mem (by rw [hg]; simp)
    have hd1 : d = 1 := glyphG_eq_one d hdmem h
    have hs := greedy_sum n
    rw [hg] at hs
    simp at hs
    omega
  | d1 :: d2 :: t => rw [hg] at h; simp at h

theorem tw_replicate (c : Char) (l : List Char) :
    l.takeWhile (fun x => x == c) =
      List.replicate (l.takeWhile (fun x => x == c)).length c := by
  induction l with
  | nil => rfl
  | cons x xs ih =>
    by_cases hx : (x == c) = true
    · have hxc : x = c := beq_iff_eq.mp hx
      subst hxc
      simp only [List.takeWhile_cons, hx, if_true, List.length_cons, List.replicate_succ]
      exact congrArg (List.cons x) ih
    · simp [List.takeWhile_cons, hx]

theorem takeWhile_len_drop (p : Char → Bool) (l : List Char) :
    l.takeWhile p ++ l.drop (l.takeWhile p).length = l := by
  induction l with
  | nil => rfl
  | cons x xs ih =>
    by_cases hx : p x = true
    · simp only [List.takeWhile_cons, hx, if_true, List.length_cons, List.cons_append,
        List.drop_succ_cons]
      rw [ih]
    · simp [List.takeWhile_cons, hx]

theorem expandToken_concat (g : List Char) (c : Char) :
    expandToken (g ++ [c]) =
      List.replicate (if g = [] then 1 else (g.map denomOf).sum) c := by
  simp [expandToken, List.getLast?_concat, List.dropLast_concat]

theorem expand_compress_char (n : Nat) (c : Char) (hn : 1 ≤ n) :
    expandToken (_compress_char n c) = List.replicate n c := by
  unfold _compress_char
  by_cases hG : (greedy n).map glyphOf = ['G']
  · rw [if_pos hG, map_glyph_singleton n hG]
    rfl
  · rw [if_neg hG, expandToken_concat]
    have hgl : (greedy n).map glyphOf ≠ [] := by
      intro hnil
      have hnilg : greedy n = [] := List.map_eq_nil_iff.mp hnil
      have hs := greedy_sum n
      rw [hnilg] at hs
      simp at hs
      omega
    rw [if_neg hgl, List.map_map]
    have hcongr : (greedy n).map (denomOf ∘ glyphOf) = (greedy n).map id := by
      apply List.map_congr_left
      intro d hd
      exact glyph_denom d (greedy_mem hd)
    rw [hcongr, List.map_id, greedy_sum]

theorem compressFuel_nil : ∀ f, compressFuel f [] = [] := by
  intro f; cases f <;> rfl

theorem tokensFuel_nil : ∀ f, tokensFuel f [] = [] := by
  intro f; cases f <;> rfl

theorem tokensFuel_congr : ∀ (f1 f2 : Nat) (l : List Char), l.length ≤ f1 →
    l.length ≤ f2 → tokensFuel f1 l = tokensFuel f2 l := by
  intro f1
  induction f1 with
  | zero =>
    intro f2 l h1 _
    have hl : l = [] := List.length_eq_zero.mp (Nat.le_zero.mp h1)
    subst hl
    rw [tokensFuel_nil, tokensFuel_nil]
  | succ f ih =>
    intro f2 l h1 h2
    match l with
    | [] => rw [tokensFuel_nil, tokensFuel_nil]
    | c :: rest =>
      cases f2 with
      | zero => simp at h2
      | succ f2' =>
        simp only [List.length_cons] at h1 h2
        simp only [tokensFuel]
        congr 1
        apply ih
        · rw [List.length_drop]; omega
        · rw [List.length_drop]; omega

theorem compressFuel_congr : ∀ (f1 f2 : Nat) (l : List Char), l.length ≤ f1 →
    l.length ≤ f2 → compressFuel f1 l = compressFuel f2 l := by
  intro f1
  induction f1 with
  | zero =>
    intro f2 l h1 _
    have hl : l = [] := List.length_eq_zero.mp (Nat.le_zero.mp h1)
    subst hl
    rw [compressFuel_nil, compressFuel_nil]
  | succ f ih =>
    intro f2 l h1 h2
    match l with
    | [] => rw [compressFuel_nil, compressFuel_nil]
    | c :: rest =>
      cases f2 with
      | zero => simp at h2
      | succ f2' =>
        simp only [List.length_cons] at h1 h2
        simp only [compressFuel]
        congr 1
        apply ih
        · rw [List.length_drop]; omega
        · rw [List.length_drop]; omega

theorem compress_cons (c : Char) (rest : List Char) :
    compress_zpl_data (c :: rest) =
      _compress_char ((rest.takeWhile (fun x => x == c)).length + 1) c ++
        compress_zpl_data
          (rest.drop (rest.takeWhile (fun x => x == c)).length) := by
  show compressFuel (rest.length + 1) (c :: rest) = _
  simp only [compressFuel]
  congr 1
  apply compressFuel_congr
  · rw [List.length_drop]; omega
  · rw [List.length_drop]

theorem tokens_cons (c : Char) (rest : List Char) :
    compressTokens (c :: rest) =
      _compress_char ((rest.takeWhile (fun x => x == c)).length + 1) c ::
        compressTokens
          (rest.drop (rest.takeWhile (fun x => x == c)).length) := by
  show tokensFuel (rest.length + 1) (c :: rest) = _
  simp only [tokensFuel]
  congr 1
  apply tokensFuel_congr
  · rw [List.length_drop]; omega
  · rw [List.length_drop]

theorem compress_join_aux : ∀ (n : Nat) (l : List Char), l.length ≤ n →
    compress_zpl_data l = (compressTokens l).flatten := by
  intro n
  induction n with
  | zero =>
    intro l h
    have hl : l = [] := List.length_eq_zero.mp (Nat.le_zero.mp h)
    subst hl
    rfl
  | succ n ih =>
    intro l h
    match l with
    | [] => rfl
    | c :: rest =>
      rw [compress_cons, tokens_cons, List.flatten_cons]
      congr 1
      apply ih
      simp only [List.length_cons] at h
      rw [List.length_drop]
      omega

theorem roundtrip_aux : ∀ (n : Nat) (l : List Char), l.length ≤ n →
    ((compressTokens l).map expandToken).flatten = l := by
  intro n
  induction n with
  | zero =>
    intro l h
    have hl : l = [] := List.length_eq_zero.mp (Nat.le_zero.mp h)
    subst hl
    rfl
  | succ n ih =>
    intro l h
    match l with
    | [] => rfl
    | c :: rest =>
      rw [tokens_cons, List.map_cons, List.flatten_cons,
        expand_compress_char _ c (by omega),
        ih _ (by simp only [List.length_cons] at h; rw [List.length_drop]; omega),
        List.replicate_succ, List.cons_append, ← tw_replicate,
        takeWhile_len_drop]

theorem isPrefixOf_length_le : ∀ (p l : List Char), p.isPrefixOf l = true →
    p.length ≤ l.length := by
  intro p
  induction p with
  | nil => intro l _; simp
  | cons a t ih =>
    intro l h
    cases l with
    | nil => simp [List.isPrefixOf] at h
    | cons b u =>
      simp only [List.isPrefixOf, Bool.and_eq_true] at h
      simp only [List.length_cons]
      exact Nat.succ_le_succ (ih u h.2)

theorem bool_eq_false {b : Bool} (h : ¬ b = true) : b = false := by
  cases b
  · rfl
  · exact absurd rfl h

theorem replicate_isPrefixOf_iff : ∀ (k : Nat) (xs : List Char),
    (List.replicate k ' ').isPrefixOf xs = true ↔
      k ≤ (xs.takeWhile (fun c => c == ' ')).length := by
  intro k
  induction k with
  | zero =>
    intro xs
    constructor
    · intro _; exact Nat.zero_le _
    · intro _
      cases xs with
      | nil => rfl
      | cons x u => rfl
  | succ k ih =>
    intro xs
    cases xs with
    | nil =>
      rw [List.replicate_succ]
      constructor
      · intro h; cases h
      · intro h; simp at h
    | cons x u =>
      rw [List.replicate_succ]
      show (' ' == x && (List.replicate k ' ').isPrefixOf u) = true ↔ _
      by_cases hx : x = ' '
      · subst hx
        rw [List.takeWhile_cons, if_pos (by simp)]
        simp only [List.length_cons]
        constructor
        · intro h
          exact Nat.succ_le_succ ((ih u).mp ((Bool.and_eq_true _ _).mp h).2)
        · intro h
          exact (Bool.and_eq_true _ _).mpr
            ⟨by simp, (ih u).mpr (Nat.le_of_succ_le_succ h)⟩
      · rw [List.takeWhile_cons, if_neg (by simpa using hx)]
        constructor
        · intro h
          exact absurd (beq_iff_eq.mp ((Bool.and_eq_true _ _).mp h).1).symm hx
        · intro h
          simp at h

theorem spaceRun_ge_iff (l : List Char) (p k : Nat) :
    (List.replicate k ' ').isPrefixOf (l.drop p) = true ↔ k ≤ spaceRun l p :=
  replicate_isPrefixOf_iff k (l.drop p)

theorem length_takeWhile_le' (p : Char → Bool) : ∀ (l : List Char),
    (l.takeWhile p).length ≤ l.length := by
  intro l
  induction l with
  | nil => exact le_rfl
  | cons x xs ih =>
    rw [List.takeWhile_cons]
    by_cases hx : p x = true
    · rw [if_pos hx]
      simpa using ih
    · rw [if_neg hx]
      simp

theorem spaceRun_le_length (l : List Char) (p : Nat) : spaceRun l p ≤ l.length := by
  unfold spaceRun
  calc ((l.drop p).takeWhile (fun c => c == ' ')).length
      ≤ (l.drop p).length := length_takeWhile_le' _ _
    _ ≤ l.length := by rw [List.length_drop]; omega

theorem strFindFuel_some : ∀ (fuel : Nat) (l pat : List Char) (start p : Nat),
    strFindFuel fuel l pat start = some p →
    start ≤ p ∧ pat.isPrefixOf (l.drop p) = true ∧
      ∀ q, start ≤ q → q < p → pat.isPrefixOf (l.drop q) = false := by
  intro fuel
  induction fuel with
  | zero => intro l pat start p h; simp [strFindFuel] at h
  | succ fuel ih =>
    intro l pat start p h
    rw [strFindFuel] at h
    by_cases hg : start + pat.length ≤ l.length
    · rw [if_pos hg] at h
      by_cases hpre : pat.isPrefixOf (l.drop start) = true
      · rw [if_pos hpre] at h
        obtain rfl : start = p := by simpa using h
        exact ⟨le_rfl, hpre, fun q hq hq' => absurd hq (by omega)⟩
      · rw [if_neg hpre] at h
        obtain ⟨h1, h2, h3⟩ := ih l pat (start + 1) p h
        refine ⟨by omega, h2, ?_⟩
        intro q hq hq'
        rcases Nat.eq_or_lt_of_le hq with rfl | hlt
        · exact bool_eq_false hpre
        · exact h3 q (by omega) hq'
    · rw [if_neg hg] at h
      cases h

theorem strFindFuel_none : ∀ (fuel : Nat) (l pat : List Char) (start : Nat),
    pat ≠ [] → l.length + 1 ≤ fuel + start →
    strFindFuel fuel l pat start = none →
    ∀ q, start ≤ q → pat.isPrefixOf (l.drop q) = false := by
  intro fuel
  induction fuel with
  | zero =>
    intro l pat start hpat hb _ q hq
    rw [List.drop_eq_nil_of_le (by omega)]
    cases pat with
    | nil => exact absurd rfl hpat
    | cons a t => rfl
  | succ fuel ih =>
    intro l pat start hpat hb h q hq
    rw [strFindFuel] at h
    by_cases hg : start + pat.length ≤ l.length
    · rw [if_pos hg] at h
      by_cases hpre : pat.isPrefixOf (l.drop start) = true
      · rw [if_pos hpre] at h; cases h
      · rw [if_neg hpre] at h
        rcases Nat.eq_or_lt_of_le hq with rfl | hlt
        · exact bool_eq_false hpre
        · exact ih l pat (start + 1) hpat (by omega) h q (by omega)
    · by_cases hp : pat.isPrefixOf (l.drop q) = true
      · exfalso
        have hplen : 1 ≤ pat.length := by
          cases pat with
          | nil => exact absurd rfl hpat
          | cons a t => simp
        have := isPrefixOf_length_le _ _ hp
        rw [List.length_drop] at this
        omega
      · exact bool_eq_false hp

theorem strFind_some {l pat : List Char} {start p : Nat}
    (h : strFind l pat start = some p) :
    start ≤ p ∧ pat.isPrefixOf (l.drop p) = true ∧
      ∀ q, start ≤ q → q < p → pat.isPrefixOf (l.drop q) = false :=
  strFindFuel_some _ l pat start p h

theorem strFind_none {l pat : List Char} {start : Nat} (hpat : pat ≠ [])
    (h : strFind l pat start = none) :
    ∀ q, start ≤ q → pat.isPrefixOf (l.drop q) = false :=
  strFindFuel_none _ l pat start hpat (by omega) h

theorem cfgLoopFuel_spec : ∀ (fuel : Nat) (l : List Char) (j k : Nat),
    1 ≤ k → l.length + 2 ≤ fuel + k →
    k - 1 ≤ spaceRun l j →
    (∀ q, q < j → spaceRun l q < k - 1) →
    (∀ p, spaceRun l p ≤ spaceRun l (cfgLoopFuel fuel l j k)) ∧
    (∀ p, p < cfgLoopFuel fuel l j k →
      spaceRun l p < spaceRun l (cfgLoopFuel fuel l j k)) := by
  intro fuel
  induction fuel with
  | zero =>
    intro l j k hk hfb hrun _
    exfalso
    have hle : spaceRun l j ≤ l.length := spaceRun_le_length l j
    omega
  | succ fuel ih =>
    intro l j k hk hfb hrun hfirst
    cases hfind : strFind l (List.replicate k ' ') j with
    | none =>
      have hres : cfgLoopFuel (fuel + 1) l j k = j := by rw [cfgLoopFuel, hfind]
      rw [hres]
      have hrep : List.replicate k ' ' ≠ [] := by
        intro hnil
        have hlen := congrArg List.length hnil
        rw [List.length_replicate] at hlen
        simp at hlen
        omega
      have hnone : ∀ q, j ≤ q → (List.replicate k ' ').isPrefixOf (l.drop q) = false :=
        strFind_none hrep hfind
      have hall : ∀ p, spaceRun l p ≤ k - 1 := by
        intro p
        by_cases hpj : j ≤ p
        · have hq := hnone p hpj
          have hk' : ¬ k ≤ spaceRun l p := by
            intro hge
            rw [(spaceRun_ge_iff l p k).mpr hge] at hq
            cases hq
          omega
        · have := hfirst p (by omega)
          omega
      refine ⟨fun p => le_trans (hall p) hrun, fun p hp => ?_⟩
      have := hfirst p hp
      omega
    | some pfound =>
      have hres : cfgLoopFuel (fuel + 1) l j k = cfgLoopFuel fuel l pfound (k + 1) := by
        rw [cfgLoopFuel, hfind]
      rw [hres]
      obtain ⟨hjp, hpref, hmin⟩ := strFind_some hfind
      have hrunp : k ≤ spaceRun l pfound := (spaceRun_ge_iff l pfound k).mp hpref
      apply ih l pfound (k + 1) (by omega) (by omega) (by simpa using hrunp)
      intro q hq
      by_cases hqj : q < j
      · have := hfirst q hqj
        omega
      · have hq' := hmin q (by omega) hq
        have hk' : ¬ k ≤ spaceRun l q := by
          intro hge
          rw [(spaceRun_ge_iff l q k).mpr hge] at hq'
          cases hq'
        omega

theorem singleton_infixOfL_iff (c : Char) (l : List Char) :
    infixOfL [c] l = true ↔ c ∈ l := by
  induction l with
  | nil => simp [infixOfL, List.isEmpty]
  | cons x xs ih =>
    simp only [infixOfL, List.isPrefixOf, Bool.or_eq_true, List.mem_cons, ih]
    constructor
    · rintro (h | h)
      · left
        have := (Bool.and_eq_true _ _).mp h
        exact (beq_iff_eq.mp this.1)
      · right; exact h
    · rintro (h | h)
      · left; subst h; simp
      · right; exact h

/-! ## Claim theorems -/

/-- C10: `dumpZPL` is read-only on the document: it returns the accumulated
command buffer with the `^XZ` terminator appended exactly once, leaves every
field of the label unchanged, repeated calls return identical strings, later
builder calls (`zpl_raw`) continue from the unterminated buffer, and a
document whose `origin` block was never closed by `endorigin` is still
terminated. -/
theorem c10_dumpZPL_read_only : ∀ (l : Label) (s : String),
    dumpZPL l = (l.code ++ "^XZ", l) ∧
    (dumpZPL l).2.height = l.height ∧ (dumpZPL l).2.width = l.width ∧
    (dumpZPL l).2.dpmm = l.dpmm ∧ (dumpZPL l).2.code = l.code ∧
    (dumpZPL ((dumpZPL l).2)).1 = (dumpZPL l).1 ∧
    Label.zpl_raw ((dumpZPL l).2) s = Label.zpl_raw l s ∧
    ((Label.init 100 110 12).origin 0 0 none).map (fun l' => (dumpZPL l').1) =
      .ok "^XA^PW1320^LL1200^FO0,0^XZ" := by
  intro l s
  refine ⟨rfl, rfl, rfl, rfl, rfl, rfl, rfl, ?_⟩
  simp only [Label.origin, Label.init, dumpZPL, fmtI]
  norm_num [pyInt]
  rfl

/-- C1 counterexample: the spec's round-half-away-from-zero rule fails on the
code.  With `dpmm = 12`, an origin x of 1/8 mm is 1.5 dots; the code emits
`^FO1,0` (truncation via `"%i"`), while round-half-away-from-zero gives 2. -/
theorem c1_counterexample :
    ((Label.init 100 110 12).origin (1 / 8) 0 none).map Label.code =
      .ok "^XA^PW1320^LL1200^FO1,0" ∧
    pyInt ((1 / 8 : ℚ) * 12) = 1 ∧
    roundHalfAway ((1 / 8 : ℚ) * 12) = 2 ∧ (1 : ℤ) ≠ 2 := by
  refine ⟨?_, by norm_num [pyInt], by norm_num [roundHalfAway], by decide⟩
  simp only [Label.origin, Label.init, fmtI]
  norm_num [pyInt]
  rfl

/-- C1 (amended): positional/size arguments that are given in millimeters
(label home, origin, text character sizes) are emitted as `trunc(m*s)` — the
floor of `m*s` for nonnegative values — which is monotonic non-decreasing in
`m`; box dimensions are NOT converted: `draw_box` takes dots and formats them
unscaled. -/
theorem c1_amended : ∀ (l : Label) (x x' y w h : ℚ),
    ((l.origin x y none).map Label.code =
      .ok (l.code ++ "^FO" ++ fmtI (x * l.dpmm) ++ "," ++ fmtI (y * l.dpmm))) ∧
    ((l.labelhome x y none).map Label.code =
      .ok (l.code ++ "^LH" ++ fmtI (x * l.dpmm) ++ "," ++ fmtI (y * l.dpmm))) ∧
    (0 ≤ x * l.dpmm → pyInt (x * l.dpmm) = ⌊x * l.dpmm⌋) ∧
    (0 ≤ x → x ≤ x' → 0 ≤ l.dpmm → pyInt (x * l.dpmm) ≤ pyInt (x' * l.dpmm)) ∧
    ((l.draw_box w h 1 "B" 0).map Label.code =
      .ok (l.code ++ ("^GB" ++ fmtI w ++ "," ++ fmtI h ++ "," ++ fmtI 1 ++ "," ++
        "B" ++ "," ++ toString (0 : ℤ)))) ∧
    ((l.draw_ellipse w h 1 "B").map Label.code =
      .ok (l.code ++ ("^GE" ++ fmtI w ++ "," ++ fmtI h ++ "," ++ fmtI 1 ++ "," ++
        "B"))) := by
  intro l x x' y w h
  refine ⟨rfl, rfl, fun hq => pyInt_nonneg_floor hq, ?_, rfl, rfl⟩
  intro hx hxx' hd
  have h1 : 0 ≤ x * l.dpmm := mul_nonneg hx hd
  have h2 : x * l.dpmm ≤ x' * l.dpmm := mul_le_mul_of_nonneg_right hxx' hd
  have h3 : 0 ≤ x' * l.dpmm := le_trans h1 h2
  rw [pyInt_nonneg_floor h1, pyInt_nonneg_floor h3]
  exact Int.floor_mono h2

/-- C1 witness: the amended theorem applied at `dpmm = 12`, `x = 1`,
`x' = 2`. -/
theorem c1_witness :
    pyInt ((1 : ℚ) * (Label.init 100 110 12).dpmm) =
      ⌊(1 : ℚ) * (Label.init 100 110 12).dpmm⌋ ∧
    pyInt ((1 : ℚ) * (Label.init 100 110 12).dpmm) ≤
      pyInt ((2 : ℚ) * (Label.init 100 110 12).dpmm) :=
  ⟨(c1_amended (Label.init 100 110 12) 1 2 0 5 7).2.2.1 (by norm_num [Label.init]),
   (c1_amended (Label.init 100 110 12) 1 2 0 5 7).2.2.2.1 (by norm_num) (by norm_num)
     (by norm_num [Label.init])⟩

/-- C5 counterexample: the claim "fails with InvalidParameter whenever
error-correction is outside {H,Q,M,L}" is violated.  The assert uses Python
substring semantics (`errorCorrection in 'HQML'`), so the two-character string
`"QM"` — not one of H, Q, M, L — is accepted and emitted. -/
theorem c5_counterexample :
    qr_barcode_zpl "N" 4 "QM" 7 = .ok "^BQN,2,4,QM,7" ∧
    "QM" ≠ "H" ∧ "QM" ≠ "Q" ∧ "QM" ≠ "M" ∧ "QM" ≠ "L" := by
  refine ⟨by rfl, by decide, by decide, by decide, by decide⟩

/-- C5 (amended): building a QR barcode fails whenever orientation is not
`"N"`, magnification is outside [1,10], the error-correction string is not a
substring of `"HQML"` (for a single character this is exactly membership in
{H,Q,M,L}), or mask is outside [1,7]; magnification 11 fails; magnification 4
with error-correction `"Q"` succeeds, the parameter fragment carries model,
magnification and error-correction in that fixed order, and the content
fragment is prefixed by the error-correction token. -/
theorem c5_amended : ∀ (o : String) (m : Nat) (ec : String) (msk : Nat) (code : String),
    ((o ≠ "N" ∨ m = 0 ∨ 10 < m ∨ substrOf ec "HQML" = false ∨ msk = 0 ∨ 7 < msk) →
      (qr_barcode_zpl o m ec msk).isOk = false) ∧
    (qr_barcode_zpl "N" 11 "Q" 7).isOk = false ∧
    barcode_q code "N" 4 "Q" 7 = .ok ("^BQN,2,4,Q,7" ++ "^FD" ++ "Q" ++ "A," ++ code) ∧
    (∀ c : Char, substrOf (String.mk [c]) "HQML" = true ↔
      (c = 'H' ∨ c = 'Q' ∨ c = 'M' ∨ c = 'L')) := by
  intro o m ec msk code
  refine ⟨?_, by rfl, by rfl, ?_⟩
  · intro h
    unfold qr_barcode_zpl
    split_ifs with h1 h2 h3 h4
    · rfl
    · rfl
    · rfl
    · rfl
    · exfalso
      rcases h with h | h | h | h | h | h
      · exact h1 (by simp [h])
      · exact h2 (by simp [h])
      · exact h2 (by simp; omega)
      · exact h3 h
      · exact h4 (by simp [h])
      · exact h4 (by simp; omega)
  · intro c
    have : substrOf (String.mk [c]) "HQML" = infixOfL [c] ['H', 'Q', 'M', 'L'] := rfl
    rw [this, singleton_infixOfL_iff]
    simp

/-- C5 witness: the amended theorem applied at bad orientation `"X"` and at
the single character `'Q'`. -/
theorem c5_witness :
    (qr_barcode_zpl "X" 4 "Q" 7).isOk = false ∧
    (substrOf (String.mk ['Q']) "HQML" = true ↔
      ('Q' = 'H' ∨ 'Q' = 'Q' ∨ 'Q' = 'M' ∨ 'Q' = 'L')) :=
  ⟨(c5_amended "X" 4 "Q" 7 "D").1 (Or.inl (by decide)),
   (c5_amended "X" 4 "Q" 7 "D").2.2.2 'Q'⟩

/-- C6 counterexample: the claim "for every combination of its other
arguments" fails.  With `line_width = None` an out-of-set justification `'Z'`
is accepted (the `^FB` block and its assert are skipped), and with
`char_height = None` an out-of-set orientation `'X'` is accepted (the `^A`
block and its assert are skipped). -/
theorem c6_counterexample :
    ((Label.init 100 110 12).write_text "hi" none none "0" 'N' none 1 0 'Z' 0
      false).isOk = true ∧
    charInStr 'Z' "LCRJ" = false ∧
    ((Label.init 100 110 12).write_text "hi" none none "0" 'X' none 1 0 'L' 0
      false).isOk = true ∧
    charInStr 'X' "NRIB" = false := by
  refine ⟨by rfl, by decide, by rfl, by decide⟩

/-- C6 (amended): `write_text`'s validation is gated on argument truthiness:
when `char_height`, `char_width` and `font` are all truthy, an orientation
outside `'NRIB'` or a font matching neither pattern fails; when `line_width`
is truthy, a justification outside `'LCRJ'` fails; but when the gating
arguments are falsy the corresponding invalid values are accepted. -/
theorem c6_amended : ∀ (l : Label) (text : String) (ch cw : Option ℚ) (font : String)
    (o : Char) (lw : Option ℚ) (ml ls : ℤ) (j : Char) (hi : ℤ) (q : Bool),
    ((truthyQ ch && truthyQ cw && !(font == "")) = true → charInStr o "NRIB" = false →
      (l.write_text text ch cw font o lw ml ls j hi q).isOk = false) ∧
    ((truthyQ ch && truthyQ cw && !(font == "")) = true → charInStr o "NRIB" = true →
      builtinFontMatch font = false → fontFileMatch font.toList = false →
      (l.write_text text ch cw font o lw ml ls j hi q).isOk = false) ∧
    (truthyQ lw = true → charInStr j "LCRJ" = false →
      (l.write_text text ch cw font o lw ml ls j hi q).isOk = false) ∧
    (truthyQ ch = false → truthyQ lw = false →
      (l.write_text text ch cw font o lw ml ls j hi q).isOk = true) := by
  intro l text ch cw font o lw ml ls j hi q
  refine ⟨?_, ?_, ?_, ?_⟩
  · intro hg ho
    have hfb : wtFontBlock l ch cw font o = .error "invalid orientation" := by
      unfold wtFontBlock
      rw [if_pos hg, if_pos ho]
    unfold Label.write_text
    rw [hfb]
    rfl
  · intro hg ho hbf hff
    have hfb : wtFontBlock l ch cw font o = .error "Invalid font." := by
      unfold wtFontBlock
      rw [if_pos hg, if_neg (by simp [ho]), if_neg (by simp [hbf]),
        if_neg (by simp only [Bool.not_eq_true]; exact hff)]
    unfold Label.write_text
    rw [hfb]
    rfl
  · intro hlw hj
    have hlb : wtLineBlock l lw ml ls j hi = .error "invalid justification" := by
      unfold wtLineBlock
      rw [if_pos hlw, if_pos hj]
    unfold Label.write_text
    rcases hfb : wtFontBlock l ch cw font o with e | f1
    · rfl
    · rw [hlb]
      rfl
  · intro hch hlw
    have hfb : wtFontBlock l ch cw font o = .ok "" := by
      unfold wtFontBlock
      rw [if_neg (by simp [hch])]
    have hlb : wtLineBlock l lw ml ls j hi = .ok "" := by
      unfold wtLineBlock
      rw [if_neg (by simp [hlw])]
    unfold Label.write_text
    rw [hfb, hlb]
    rfl

/-- C6 witness: the amended theorem applied with the font block active and a
bad orientation, and with everything falsy and a bad justification. -/
theorem c6_witness :
    ((Label.init 100 110 12).write_text "hi" (some 5) (some 4) "0" 'X' none 1 0 'L' 0
      false).isOk = false ∧
    ((Label.init 100 110 12).write_text "hi" none none "0" 'N' none 1 0 'Q' 0
      false).isOk = true :=
  ⟨(c6_amended (Label.init 100 110 12) "hi" (some 5) (some 4) "0" 'X' none 1 0 'L' 0
      false).1 (by decide) (by decide),
   (c6_amended (Label.init 100 110 12) "hi" none none "0" 'N' none 1 0 'Q' 0
      false).2.2.2 (by rfl) (by rfl)⟩

/-- C8: `write_graphic` derives a missing height as the integer truncation of
`source_height / source_width * requested_width`; the emitted header satisfies
`bytesPerRow = ceil(widthDots/8)` and, whenever the height in dots is an
integer, `totalBytes = bytesPerRow * heightDots`; and every compression mode
other than `"A"` fails with the unsupported-compression error. -/
theorem c8_write_graphic : ∀ (l : Label) (srcW srcH : Nat) (data : String)
    (width height : ℚ),
    (∀ comp, comp ≠ "A" →
      (l.write_graphic srcW srcH data width height comp).isOk = false) ∧
    ((l.write_graphic srcW srcH data width height "A").map (fun r => (r.1.code, r.2)) =
      .ok (l.code ++ ("^GFA," ++ toString data.length ++ "," ++
        toString (pyInt (((⌈width * l.dpmm / 8⌉ : ℤ) : ℚ) *
          graphicHeight srcW srcH width height * l.dpmm)) ++ "," ++
        toString (⌈width * l.dpmm / 8⌉ : ℤ) ++ "," ++ data),
        graphicHeight srcW srcH width height)) ∧
    (height = 0 → graphicHeight srcW srcH width height =
      ((pyInt ((srcH : ℚ) / (srcW : ℚ) * width) : ℤ) : ℚ)) ∧
    (0 ≤ (srcH : ℚ) / (srcW : ℚ) * width →
      pyInt ((srcH : ℚ) / (srcW : ℚ) * width) = ⌊(srcH : ℚ) / (srcW : ℚ) * width⌋) ∧
    (∀ z : ℤ, graphicHeight srcW srcH width height * l.dpmm = (z : ℚ) →
      pyInt (((⌈width * l.dpmm / 8⌉ : ℤ) : ℚ) * graphicHeight srcW srcH width height *
        l.dpmm) = ⌈width * l.dpmm / 8⌉ * z) := by
  intro l srcW srcH data width height
  refine ⟨?_, by rfl, ?_, fun hq => pyInt_nonneg_floor hq, ?_⟩
  · intro comp hcomp
    unfold Label.write_graphic
    rw [if_neg hcomp]
    rfl
  · intro h0
    unfold graphicHeight
    rw [if_pos h0]
  · intro z hz
    have : ((⌈width * l.dpmm / 8⌉ : ℤ) : ℚ) * graphicHeight srcW srcH width height *
        l.dpmm = ((⌈width * l.dpmm / 8⌉ * z : ℤ) : ℚ) := by
      rw [mul_assoc, hz]
      push_cast
      ring
    rw [this, pyInt_intCast]

/-- C2: token round-trip of the run-length codec.  For every string over the
payload alphabet (in fact for every character string), re-expanding each
(count-glyphs, literal) token of `compress_zpl_data s` — replacing the token
by its literal character repeated the sum of the counts its glyphs denote, a
bare literal counting as a run of 1 — yields exactly `s` again; and the
compressed stream is exactly the concatenation of those tokens. -/
theorem c2_roundtrip : ∀ s : List Char,
    ((compressTokens s).map expandToken).flatten = s ∧
    compress_zpl_data s = (compressTokens s).flatten :=
  fun s => ⟨roundtrip_aux s.length s le_rfl, compress_join_aux s.length s le_rfl⟩

/-- C3: `compress_zpl_data` scans left-to-right replacing each maximal run by
greedy count glyphs (largest denomination of `ZPL_COMPRESS_COUNTS` not
exceeding the remaining count, the list being sorted descending) followed by
the literal; a run of length 1 emits the bare literal; `compress("") = ""`,
`compress("A") = "A"`, and a run of twenty `'A'` is encoded with the dedicated
20-run glyph `'g'` plus `'A'`. -/
theorem c3_compress_spec :
    compress_zpl_data [] = [] ∧
    compress_zpl_data "A".toList = "A".toList ∧
    compress_zpl_data (List.replicate 20 'A') = "gA".toList ∧
    (∀ c, _compress_char 1 c = [c]) ∧
    (∀ n : Nat, 1 ≤ n → ∃ d, pickDenom n = some d ∧ d ∈ ZPL_COMPRESS_COUNTS ∧
      d ≤ n ∧ ∀ e ∈ ZPL_COMPRESS_COUNTS, e ≤ n → e ≤ d) ∧
    (∀ (n : Nat) (c : Char), 2 ≤ n →
      _compress_char n c = (greedy n).map glyphOf ++ [c]) := by
  refine ⟨rfl, by decide, by decide, ?_, ?_, ?_⟩
  · intro c
    unfold _compress_char
    rw [if_pos (show (greedy 1).map glyphOf = ['G'] by decide)]
  · intro n hn
    obtain ⟨d, hd⟩ := pickDenom_isSome hn
    exact ⟨d, hd, pickDenom_mem hd, pickDenom_le hd,
      fun e he hen => find?_desc_max _ n d counts_sorted hd e he hen⟩
  · intro n c h2
    unfold _compress_char
    rw [if_neg]
    intro hG
    have := map_glyph_singleton n hG
    omega

/-- C3 witness: the greedy-pick characterization applied at run length 50
(largest denomination 40) and the two-or-more branch at run length 2. -/
theorem c3_witness :
    (∃ d, pickDenom 50 = some d ∧ d ∈ ZPL_COMPRESS_COUNTS ∧ d ≤ 50 ∧
      ∀ e ∈ ZPL_COMPRESS_COUNTS, e ≤ 50 → e ≤ d) ∧
    _compress_char 2 'B' = (greedy 2).map glyphOf ++ ['B'] :=
  ⟨c3_compress_spec.2.2.2.2.1 50 (by decide),
   c3_compress_spec.2.2.2.2.2 2 'B' (by decide)⟩

/-- C9: `get_printer_config` splits every configuration line at the line's
longest run of consecutive spaces (its first occurrence): the split index has
a space run at least as long as the run at any position, strictly longer than
the run at any earlier position; the text from the split point on (trimmed)
becomes the setting name and the text left of it (trimmed) the value; in
particular `"  4   Darkness"` yields value `"4"` and name `"Darkness"`. -/
theorem c9_config_split :
    configSplitLine "  4   Darkness".toList = ("Darkness".toList, "4".toList) ∧
    ∀ line : List Char,
      (∀ p, spaceRun (pyStrip line) p ≤
        spaceRun (pyStrip line) (cfgSplitIdx (pyStrip line))) ∧
      (∀ p, p < cfgSplitIdx (pyStrip line) →
        spaceRun (pyStrip line) p <
          spaceRun (pyStrip line) (cfgSplitIdx (pyStrip line))) ∧
      configSplitLine line =
        (pyStrip ((pyStrip line).drop (cfgSplitIdx (pyStrip line))),
         pyStrip ((pyStrip line).take (cfgSplitIdx (pyStrip line)))) := by
  refine ⟨by rfl, ?_⟩
  intro line
  have h := cfgLoopFuel_spec ((pyStrip line).length + 1) (pyStrip line) 0 1 le_rfl
    (by omega) (Nat.zero_le _) (fun q hq => absurd hq (Nat.not_lt_zero q))
  exact ⟨h.1, h.2, rfl⟩

/-- C9 witness: the general split property applied at the example line, at
position 0 below the split index 1. -/
theorem c9_witness :
    spaceRun (pyStrip "  4   Darkness".toList) 0 <
      spaceRun (pyStrip "  4   Darkness".toList)
        (cfgSplitIdx (pyStrip "  4   Darkness".toList)) :=
  (c9_config_split.2 "  4   Darkness".toList).2.1 0 (by decide)

/-- C4 counterexample: the bit conditions are NOT tested independently.  In a
telegram whose warning nibble digit is `3` (bits 1 and 2 both set), the
`if/elif` chain reports only `Sensor 5 (presenter)`; the claim requires
`Sensor 6 (retract ready)` to appear as well since its bit is set. -/
theorem c4_counterexample :
    get_printer_errors
      (fun _ =>
        "x\nx\nx\n  ERRORS:         1 00000000 00000000\n  WARNINGS:        1 00000300 00000000")
      ⟨[], [], []⟩ =
      .ok (("1", ["Sensor 5 (presenter)"], "1", []), ⟨[], [], []⟩) ∧
    (3 : Nat) &&& 2 ≠ 0 ∧
    "Sensor 6 (retract ready)" ∉ ["Sensor 5 (presenter)"] := by
  refine ⟨by rfl, by decide, by decide⟩

/-- C4 (amended): each `if/elif` nibble chain of `get_printer_errors` reports
at most one condition — the one of the lowest set bit; a condition whose bit
is set is suppressed whenever a lower tested bit is also set, and a nibble
with none of the tested bits set contributes nothing. -/
theorem c4_amended : ∀ (n : Nat) (c1 c2 c3 c4 : String),
    (elifChain4 n c1 c2 c3 c4).length ≤ 1 ∧
    (n &&& 1 ≠ 0 → elifChain4 n c1 c2 c3 c4 = [c1]) ∧
    (c2 ≠ c1 → n &&& 1 ≠ 0 → c2 ∉ elifChain4 n c1 c2 c3 c4) ∧
    (n &&& 1 = 0 ∧ n &&& 2 = 0 ∧ n &&& 4 = 0 ∧ n &&& 8 = 0 →
      elifChain4 n c1 c2 c3 c4 = []) ∧
    (elifChain2 n c1 c2).length ≤ 1 ∧
    (c2 ≠ c1 → n &&& 1 ≠ 0 → c2 ∉ elifChain2 n c1 c2) := by
  intro n c1 c2 c3 c4
  refine ⟨?_, ?_, ?_, ?_, ?_, ?_⟩
  · unfold elifChain4
    split_ifs <;> simp
  · intro h
    unfold elifChain4
    rw [if_pos h]
  · intro hne h
    unfold elifChain4
    rw [if_pos h]
    simp [hne]
  · rintro ⟨h1, h2, h4, h8⟩
    unfold elifChain4
    rw [if_neg (by simp [h1]), if_neg (by simp [h2]), if_neg (by simp [h4]),
      if_neg (by simp [h8])]
  · unfold elifChain2
    split_ifs <;> simp
  · intro hne h
    unfold elifChain2
    rw [if_pos h]
    simp [hne]

/-- C4 witness: the amended theorem applied at nibble value 3 (bits 1 and 2
set): only the first condition is reported. -/
theorem c4_witness :
    elifChain4 3 "a" "b" "c" "d" = ["a"] ∧ "b" ∉ elifChain4 3 "a" "b" "c" "d" :=
  ⟨(c4_amended 3 "a" "b" "c" "d").2.1 (by decide),
   (c4_amended 3 "a" "b" "c" "d").2.2.1 (by decide) (by decide)⟩

/-- C8 witness: the theorem applied at a 2×1 source raster, 2 mm width, no
height, dpmm 12 (height dots 12, bytes-per-row 3, total bytes 36). -/
theorem c8_witness :
    ((Label.init 100 110 12).write_graphic 2 1 "FF" 2 0 "B").isOk = false ∧
    graphicHeight 2 1 2 0 = ((pyInt (((1 : Nat) : ℚ) / ((2 : Nat) : ℚ) * 2) : ℤ) : ℚ) ∧
    pyInt (((⌈(2 : ℚ) * (Label.init 100 110 12).dpmm / 8⌉ : ℤ) : ℚ) *
        graphicHeight 2 1 2 0 * (Label.init 100 110 12).dpmm) =
      ⌈(2 : ℚ) * (Label.init 100 110 12).dpmm / 8⌉ * 12 :=
  ⟨(c8_write_graphic (Label.init 100 110 12) 2 1 "FF" 2 0).1 "B" (by decide),
   (c8_write_graphic (Label.init 100 110 12) 2 1 "FF" 2 0).2.2.1 rfl,
   (c8_write_graphic (Label.init 100 110 12) 2 1 "FF" 2 0).2.2.2.2 12
     (by norm_num [graphicHeight, pyInt, Label.init])⟩


/-- C7 counterexample: the error/warning query type has no cache of its own.
A first successful `get_printer_errors` call parses the telegram but leaves
every cache of the printer state unchanged (nothing is stored), and once the
identification cache `_info` is populated the call fails with a `NameError`
instead of returning any cached record — so subsequent calls never return a
cached error record. -/
theorem c7_counterexample :
    get_printer_errors
      (fun _ =>
        "x\nx\nx\n  ERRORS:         1 00000000 00000000\n  WARNINGS:        1 00000000 00000000")
      ⟨[], [], []⟩ =
      .ok (("1", [], "1", []), ⟨[], [], []⟩) ∧
    get_printer_errors (fun _ => "") ⟨[("model", "ZD410")], [], []⟩ =
      .error "NameError" := by
  refine ⟨by rfl, by rfl⟩

/-- C7 (amended): the status and configuration queries cache their parsed
record and return it — independent of the transport — on subsequent calls,
with the reload flag forcing re-querying; the identification query caches but
exposes no reload parameter; the error/warning query caches nothing: it
returns its state unchanged, mistakenly consults the identification cache,
and fails outright once that cache is populated. -/
theorem c7_amended : ∀ (req req2 : String → String) (st : PrinterState),
    (st.stat ≠ [] → get_printer_status req false st = .ok (st.stat, st) ∧
      get_printer_status req false st = get_printer_status req2 false st) ∧
    (st.cfg ≠ [] → get_printer_config req false st = (st.cfg, st) ∧
      get_printer_config req false st = get_printer_config req2 false st) ∧
    (st.info ≠ [] → get_printer_info req st = .ok (st.info, st)) ∧
    (∀ r s', get_printer_errors req st = .ok (r, s') → s' = st) ∧
    (st.info ≠ [] → get_printer_errors req st = .error "NameError") ∧
    (get_printer_status
        (fun _ => "\x02a,b,c,128,e,f,g,h,000,i,j,k\x03\r\n\x02aa,bb,cc,dd,ee,ff,gg,hh,ii,jj,kk\x03\r\n\x02pw,sr\x03")
        true ⟨[], [], [("interface", "x")]⟩ ≠
      get_printer_status
        (fun _ => "\x02z,b,c,128,e,f,g,h,000,i,j,k\x03\r\n\x02aa,bb,cc,dd,ee,ff,gg,hh,ii,jj,kk\x03\r\n\x02pw,sr\x03")
        true ⟨[], [], [("interface", "x")]⟩) ∧
    (get_printer_status
        (fun _ => "\x02a,b,c,128,e,f,g,h,000,i,j,k\x03\r\n\x02aa,bb,cc,dd,ee,ff,gg,hh,ii,jj,kk\x03\r\n\x02pw,sr\x03")
        false ⟨[], [], [("interface", "x")]⟩ =
      get_printer_status
        (fun _ => "\x02z,b,c,128,e,f,g,h,000,i,j,k\x03\r\n\x02aa,bb,cc,dd,ee,ff,gg,hh,ii,jj,kk\x03\r\n\x02pw,sr\x03")
        false ⟨[], [], [("interface", "x")]⟩) ∧
    (∃ d, get_printer_status
        (fun _ => "\x02a,b,c,128,e,f,g,h,000,i,j,k\x03\r\n\x02aa,bb,cc,dd,ee,ff,gg,hh,ii,jj,kk\x03\r\n\x02pw,sr\x03")
        false ⟨[], [], []⟩ = .ok (d, ⟨[], [], d⟩) ∧ d ≠ []) ∧
    (∃ d, get_printer_config (fun _ => "\x02\r\n  4   Darkness\r\n  9   Contrast\r\n\x03")
        false ⟨[], [], []⟩ = (d, ⟨[], d, []⟩) ∧ d ≠ []) ∧
    (∃ d, get_printer_info (fun _ => "\x02ZD410,V1.0,8,2048KB\x03") ⟨[], [], []⟩ =
      .ok (d, ⟨d, [], []⟩) ∧ d ≠ []) := by
  intro req req2 st
  obtain ⟨i0, c0, s0⟩ := st
  refine ⟨?_, ?_, ?_, ?_, ?_, ?_, by rfl, ?_, ?_, ?_⟩
  · intro hs
    cases s0 with
    | nil => exact absurd rfl hs
    | cons a t => exact ⟨rfl, rfl⟩
  · intro hc
    cases c0 with
    | nil => exact absurd rfl hc
    | cons a t => exact ⟨rfl, rfl⟩
  · intro hi
    cases i0 with
    | nil => exact absurd rfl hi
    | cons a t => rfl
  · intro r s' h
    cases i0 with
    | nil =>
      unfold get_printer_errors at h
      cases hp : parseHQES (req "~HQES") with
      | error e => rw [hp] at h; cases h
      | ok rr =>
        rw [hp] at h
        have := Except.ok.inj h
        exact (congrArg Prod.snd this).symm
    | cons a t =>
      unfold get_printer_errors at h
      cases h
  · intro hi
    cases i0 with
    | nil => exact absurd rfl hi
    | cons a t => rfl
  · intro h
    have h1 := Except.ok.inj h
    have h2 := congrArg Prod.fst h1
    exact absurd (congrArg (fun d => List.lookup "interface" d) h2) (by decide)
  · exact ⟨[("interface", "a"), ("paper_out", "b"), ("pause", "c"),
      ("label_length", "128"), ("number_of_formats_in_recv_buf", "e"),
      ("buffer_full", "f"), ("comm_diag_mode", "g"), ("partial_format", "h"),
      ("corrupt_ram", "i"), ("under_temp", "j"), ("over_temp", "k"),
      ("func_settings", "aa"), ("head_up", "cc"), ("ribbon_out", "dd"),
      ("thermoal_transfer", "ee"), ("print_mode", "ff"), ("print_width_mode", "gg"),
      ("label_waiting", "hh"), ("labels_remaining", "ii"),
      ("format_while_printing", "jj"), ("graphics_stored_in_mem", "kk"),
      ("password", "pw"), ("static_ram", "sr")], by rfl, by decide⟩
  · exact ⟨[("Darkness", "4"), ("Contrast", "9")], by rfl, by decide⟩
  · exact ⟨[("model", "ZD410"), ("version", "V1.0"), ("dpmm", "8"),
      ("mem", "2048KB")], by rfl, by decide⟩

/-- C7 witness: the amended theorem applied at a populated status cache and a
populated identification cache. -/
theorem c7_witness :
    get_printer_status (fun _ => "t1") false ⟨[], [], [("interface", "x")]⟩ =
      .ok ([("interface", "x")], ⟨[], [], [("interface", "x")]⟩) ∧
    get_printer_errors (fun _ => "t1") ⟨[("model", "m")], [], []⟩ =
      .error "NameError" :=
  ⟨((c7_amended (fun _ => "t1") (fun _ => "t2")
      ⟨[], [], [("interface", "x")]⟩).1 (by decide)).1,
   (c7_amended (fun _ => "t1") (fun _ => "t2")
      ⟨[("model", "m")], [], []⟩).2.2.2.2.1 (by decide)⟩

end Zpl
